import Mathlib

/-!
Shallow embedding of the MakerMatty_Curves repository: the sliding-average
class `MA<T>` (called SlidingAverage in the specification) and the exponential
moving-average class `EMA` (called ExponentialTracker in the specification).

The repository ships several revisions of each class:

* `MA` below embeds the copy/move-safe revision of `MA<T>` (src/unnamed/part_001),
  instantiated at `T = int`.  Its two-argument constructor is `MA.construct`,
  which zero-fills the buffer via `memset(m_data, 0, m_n * sizeof(T))` when the
  seed is zero and does NOT clamp the requested capacity.
* `MAv1.construct` embeds the constructor of the 2016/2020 revision
  (src/src/MakerMatty_MA.h, lines 76-95), which clamps the capacity to at least 1,
  leaves the cached `value` member at its default-initializer 0, and accumulates
  the seeded sum through explicit `(uint32_t)` casts into an `int32_t`.
* `MAv2.construct` embeds the constructor of the intermediate revision
  (src/unnamed/part_000, lines 76-100), which clamps the capacity and seeds
  sum/value like part_001.
* `EMA1` embeds the 2020 revision of `EMA` (src/src/MakerMatty_EMA.h lines 8-56);
  its `update` returns `void`.  `EMA2` embeds the 2022 revision (lines 63-116),
  whose `update` returns the freshly computed value.

Modelling conventions: the C++ machine integers (`uint16_t` indices and sizes,
`int32_t` accumulator, `int` samples) are embedded as `Nat`/`Int`; arithmetic on
them is exact, i.e. the embedding assumes no signed-integer overflow, except in
`MAv1.construct`'s seeding loop where the source performs explicit unsigned
casts — there two's-complement 32-bit wraparound is modelled exactly via
`u32`/`i32`.  C++ `int` division truncates toward zero, which is `Int.tdiv`.
`float` quantities of `EMA` are embedded as exact rationals `ℚ`; the concrete
traces proved below only involve float computations that are exact in IEEE
arithmetic, where the rational model and the machine agree.  A `nullptr` buffer
is modelled as the empty list.
-/

/-- State of `MA<T>` for `T = int`: field-for-field image of the C++ members
`m_n`, `m_data`, `m_index`, `m_sum`, `m_filled`, `m_value` (part_001 lines 74-79;
the 2020 revision has the same members without the `m_` prefixes). -/
structure MA where
  n : Nat
  data : List Int
  index : Nat
  sum : Int
  filled : Bool
  value : Int
deriving DecidableEq

/-- Two-argument constructor of part_001 (lines 100-119): `m_n(n)`,
`m_data(new T[n])`, `m_index(0)`; a non-zero seed fills every slot with `init`
(the `for` loop writes all `m_n` slots) and sets `m_sum = init * m_n`,
`m_filled = true`, `m_value = init`; a zero seed zeroes the storage via
`memset(m_data, 0, m_n * sizeof(T))`.  Note the requested capacity is used
unchanged — this revision has no `len >= 1 ? len : 1` clamp. -/
def MA.construct (n : Nat) (init : Int) : MA :=
  if init ≠ 0 then
    { n := n, data := List.replicate n init, index := 0,
      sum := init * (n : Int), filled := true, value := init }
  else
    { n := n, data := List.replicate n 0, index := 0,
      sum := 0, filled := false, value := 0 }

/-- Index actually read and written by `update` (part_001 lines 168-175): the
stored `m_index`, after the `if (m_index >= m_n)` reset. -/
def MA.updateIndex0 (s : MA) : Nat :=
  if s.n ≤ s.index then 0 else s.index

/-- Value of `m_filled` after the reset branch at the top of `update`. -/
def MA.updateFilled (s : MA) : Bool :=
  if s.n ≤ s.index then true else s.filled

/-- Divisor of the average computed at the end of `update`: `m_n` when filled,
otherwise the post-increment `m_index`. -/
def MA.updateDivisor (s : MA) : Nat :=
  if s.updateFilled then s.n else s.updateIndex0 + 1

/-- `MA<T>::update` (part_001 lines 165-181, identical to MakerMatty_MA.h lines
116-132 up to member names): reset index and set `filled` on wrap, evict
`m_data[m_index]` from the running sum, store the new sample, increment the
index and cache `m_value = m_sum / (m_filled ? m_n : m_index)` with truncating
`int32_t` division. -/
def MA.update (s : MA) (val : Int) : MA :=
  let i := s.updateIndex0
  let f := s.updateFilled
  let sum' := s.sum - s.data.getD i 0 + val
  { n := s.n, data := s.data.set i val, index := i + 1, sum := sum',
    filled := f, value := Int.tdiv sum' (s.updateDivisor : Int) }

/-- The C++ `update` ends with `return m_value;`: its return value is the cached
value of the state it produces. -/
def MA.updateRet (s : MA) (val : Int) : Int :=
  (s.update val).value

/-- `MA<T>::getValue` (part_001 lines 190-194): returns the cached `m_value`. -/
def MA.getValue (s : MA) : Int :=
  s.value

/-- `MA<T>::setValue` (part_001 lines 203-212): the `for` loop fills every one
of the `m_n` buffer slots with `val`, then `m_sum = val * m_n`,
`m_filled = true`, `m_value = val`.  `m_index` is left untouched. -/
def MA.setValue (s : MA) (val : Int) : MA :=
  { n := s.n, data := List.replicate s.n val, index := s.index,
    sum := val * (s.n : Int), filled := true, value := val }

/-- Default constructor of part_001 (lines 82-91): capacity 0, null buffer
(modelled as the empty list), all counters zero. -/
def MA.defaultState : MA :=
  { n := 0, data := [], index := 0, sum := 0, filled := false, value := 0 }

/-- Move constructor of part_001 (lines 134-145): every member of `other` is
`std::exchange`d into the new object; the pair returned is
(destination, source after the move). -/
def MA.moveConstruct (other : MA) : MA × MA :=
  ({ n := other.n, data := other.data, index := other.index, sum := other.sum,
     filled := other.filled, value := other.value },
   MA.defaultState)

/-- Move assignment of part_001 (lines 228-243): after the `this == &other`
self-assignment guard (object identity, not representable between two distinct
values of this model), every member of `other` is `std::exchange`d into the
destination, whose previous members are discarded.  The pair returned is
(destination after the assignment, source after the assignment). -/
def MA.moveAssign (dst other : MA) : MA × MA :=
  let _ := dst
  ({ n := other.n, data := other.data, index := other.index, sum := other.sum,
     filled := other.filled, value := other.value },
   MA.defaultState)

/-- Conversion `int -> uint32_t`: reduction modulo 2^32. -/
def u32 (x : Int) : Nat :=
  (x % (2 ^ 32 : Int)).toNat

/-- Conversion of an unsigned 32-bit quantity back to `int32_t`, modelled as
two's-complement reinterpretation (the behaviour of every supported target). -/
def i32 (u : Nat) : Int :=
  if u % 2 ^ 32 < 2 ^ 31 then ((u % 2 ^ 32 : Nat) : Int)
  else ((u % 2 ^ 32 : Nat) : Int) - 2 ^ 32

/-- Reduction of an unbounded integer into the `int32_t` range by wraparound. -/
def wrap32 (x : Int) : Int :=
  (x + 2 ^ 31) % 2 ^ 32 - 2 ^ 31

/-- Seeding loop of MakerMatty_MA.h lines 89-92: `sum += (uint32_t)data[i]`
executed `n` times on an `int32_t` accumulator starting from 0, after each slot
has been set to `init`. -/
def v1seedSum (init : Int) (n : Nat) : Int :=
  (List.range n).foldl (fun s _ => i32 (u32 s + u32 init)) 0

/-- Constructor of the 2016/2020 revision, MakerMatty_MA.h lines 76-95:
`n = len >= 1 ? len : 1` (capacity clamp); `data = new T[n]` leaves the array
uninitialized, so the indeterminate contents are supplied by the parameter `g`;
`filled = false`, `index = 0`, `sum = 0`; a non-zero seed then fills every slot
with `init`, accumulates `sum += (uint32_t)data[i]`, and sets `filled = true`.
The member initializer `T value = 0` is never reassigned: the cached value
stays 0 even when seeded. -/
def MAv1.construct (len : Nat) (init : Int) (g : Nat → Int) : MA :=
  let n := if 1 ≤ len then len else 1
  if init ≠ 0 then
    { n := n, data := List.replicate n init, index := 0,
      sum := v1seedSum init n, filled := true, value := 0 }
  else
    { n := n, data := (List.range n).map g, index := 0,
      sum := 0, filled := false, value := 0 }

/-- Constructor of the intermediate revision, part_000 lines 76-100:
`m_n = len >= 1 ? len : 1` (capacity clamp); a non-zero seed fills every slot
and sets `m_sum = init * m_n`, `m_filled = true`, `m_value = init`; a zero seed
runs `memset(m_data, 0, m_n)`, which zeroes only `m_n` BYTES: element `i` is
zeroed only when its `tSize = sizeof(T)` bytes lie wholly inside the first
`m_n` bytes, the remaining elements keep their indeterminate contents `g i`. -/
def MAv2.construct (len : Nat) (init : Int) (g : Nat → Int) (tSize : Nat) : MA :=
  let n := if 1 ≤ len then len else 1
  if init ≠ 0 then
    { n := n, data := List.replicate n init, index := 0,
      sum := init * (n : Int), filled := true, value := init }
  else
    { n := n, data := (List.range n).map (fun i => if (i + 1) * tSize ≤ n then 0 else g i),
      index := 0, sum := 0, filled := false, value := 0 }

/-- Feeding a whole sample sequence to `update`, left to right. -/
def MA.runUpdates (s : MA) (vs : List Int) : MA :=
  vs.foldl MA.update s

/-- State of an unseeded sliding average of capacity `c` (part_001 revision)
after the samples `vs` have been pushed. -/
def MAfrom (c : Nat) (vs : List Int) : MA :=
  (MA.construct c 0).runUpdates vs

/-- State of the 2020 revision of `EMA` (src/src/MakerMatty_EMA.h lines 8-56):
`int n` and the history array `float value[3]` (`v0` = `value[0]` = current,
`v1` = `value[1]` = previous, `v2` = `value[2]` = previous-previous), floats
modelled as exact rationals. -/
structure EMA1 where
  n : Int
  v0 : ℚ
  v1 : ℚ
  v2 : ℚ
deriving DecidableEq

/-- Default constructor of the 2020 `EMA` (lines 15-21): `n = 1`, all slots 0. -/
def EMA1.defaultCtor : EMA1 :=
  { n := 1, v0 := 0, v1 := 0, v2 := 0 }

/-- Two-argument constructor of the 2020 `EMA` (lines 23-29).  Its body reads
`n = n;`: the parameter `n` shadows the member `n`, so the statement assigns
the parameter to itself and the member keeps its previous, indeterminate value,
supplied here as `nPrev`.  The three history slots are set to `val`. -/
def EMA1.construct (nPrev : Int) (n : Int) (val : ℚ) : EMA1 :=
  let _ := n
  { n := nPrev, v0 := val, v1 := val, v2 := val }

/-- `EMA::update` of the 2020 revision (lines 31-40): shift the history, then
`value[0] = val * k + value[1] * (1.0 - k)` with `k = 2.0 / (n + 1)`.  The
return type is `void`, so only the new state is produced. -/
def EMA1.update (e : EMA1) (val : ℚ) : EMA1 :=
  let w2 := e.v1
  let w1 := e.v0
  let k : ℚ := 2 / ((e.n : ℚ) + 1)
  { n := e.n, v0 := val * k + w1 * (1 - k), v1 := w1, v2 := w2 }

/-- `EMA::getValue` (2020 revision, lines 42-45). -/
def EMA1.getValue (e : EMA1) : ℚ := e.v0

/-- `EMA::getSlope` (2020 revision, lines 47-50). -/
def EMA1.getSlope (e : EMA1) : ℚ := e.v0 - e.v1

/-- `EMA::getCurve` (2020 revision, lines 52-55). -/
def EMA1.getCurve (e : EMA1) : ℚ := (e.v0 - e.v1) - (e.v1 - e.v2)

/-- State of the 2022 revision of `EMA` (src/src/MakerMatty_EMA.h lines 63-116):
members `m_n` and `m_values[3]`. -/
structure EMA2 where
  n : Int
  v0 : ℚ
  v1 : ℚ
  v2 : ℚ
deriving DecidableEq

/-- `EMA::setValue` of the 2022 revision (lines 96-101): all three slots are
set to `value`. -/
def EMA2.setValue (e : EMA2) (value : ℚ) : EMA2 :=
  { n := e.n, v0 := value, v1 := value, v2 := value }

/-- Two-argument constructor of the 2022 revision (lines 74-78): `m_n(n)`, then
`this->setValue(value)`; the slot contents before `setValue` are irrelevant
because `setValue` overwrites all three. -/
def EMA2.construct (n : Int) (value : ℚ) : EMA2 :=
  EMA2.setValue { n := n, v0 := 0, v1 := 0, v2 := 0 } value

/-- Default constructor of the 2022 revision (lines 66-72). -/
def EMA2.defaultCtor : EMA2 :=
  { n := 1, v0 := 0, v1 := 0, v2 := 0 }

/-- `EMA::update` of the 2022 revision (lines 80-89): shift the history,
compute `m_values[0] = val * k + m_values[1] * (1.0 - k)` with
`k = 2.0 / (m_n + 1)`, and `return` that assignment's value.  The result is
the pair (new state, returned float). -/
def EMA2.update (e : EMA2) (val : ℚ) : EMA2 × ℚ :=
  let w2 := e.v1
  let w1 := e.v0
  let k : ℚ := 2 / ((e.n : ℚ) + 1)
  let w0 := val * k + w1 * (1 - k)
  ({ n := e.n, v0 := w0, v1 := w1, v2 := w2 }, w0)

/-- `EMA::getValue` (2022 revision, lines 91-94). -/
def EMA2.getValue (e : EMA2) : ℚ := e.v0

/-- `EMA::getSlope` (2022 revision, lines 103-106). -/
def EMA2.getSlope (e : EMA2) : ℚ := e.v0 - e.v1

/-- `EMA::getCurve` (2022 revision, lines 108-111). -/
def EMA2.getCurve (e : EMA2) : ℚ := (e.v0 - e.v1) - (e.v1 - e.v2)

/-- States of the part_001 sliding average reachable by a construction with
capacity at least 1 followed by any sequence of `update` and `setValue` calls. -/
inductive MA.Reachable : MA → Prop
  | construct (c : Nat) (init : Int) (hc : 1 ≤ c) : MA.Reachable (MA.construct c init)
  | update (s : MA) (v : Int) (h : MA.Reachable s) : MA.Reachable (s.update v)
  | setValue (s : MA) (v : Int) (h : MA.Reachable s) : MA.Reachable (s.setValue v)

/-- The running-sum relation claimed by the specification: `m_sum` equals the
sum of the `min(samplesSeen, capacity)` most recent values physically stored in
the buffer — all of the buffer once filled, the first `m_index` slots before. -/
def MA.SumInv (s : MA) : Prop :=
  s.sum = if s.filled then s.data.sum else (s.data.take s.index).sum

/-- Strengthened structural invariant used to establish `MA.SumInv`: the buffer
length matches the capacity, the write index stays within the capacity, the
capacity is positive, and before the first wrap the slots at and beyond the
write index still hold the zero fill of the constructor. -/
def MA.Inv (s : MA) : Prop :=
  s.data.length = s.n ∧ s.index ≤ s.n ∧ 1 ≤ s.n ∧
    (if s.filled then s.sum = s.data.sum
     else s.sum = (s.data.take s.index).sum ∧ ∀ i, s.index ≤ i → s.data.getD i 0 = 0)

lemma i32_eq_wrap32 (u : Nat) : i32 u = wrap32 (u : Int) := by
  rw [i32, wrap32]
  split <;> omega

lemma u32_cast (x : Int) : ((u32 x : Nat) : Int) = x % 2 ^ 32 := by
  rw [u32]
  exact Int.toNat_of_nonneg (Int.emod_nonneg x (by norm_num))

lemma i32_u32_add (a b : Int) : i32 (u32 a + u32 b) = wrap32 (a + b) := by
  rw [i32_eq_wrap32, wrap32, wrap32]
  push_cast [u32_cast]
  omega

lemma wrap32_add_left (x y : Int) : wrap32 (wrap32 x + y) = wrap32 (x + y) := by
  rw [wrap32, wrap32, wrap32]
  omega

lemma wrap32_eq_self (x : Int) (h1 : -(2 ^ 31) ≤ x) (h2 : x < 2 ^ 31) : wrap32 x = x := by
  rw [wrap32]
  omega

lemma v1seedSum_eq (init : Int) (n : Nat) : v1seedSum init n = wrap32 (init * n) := by
  induction n with
  | zero =>
    rw [v1seedSum, wrap32]
    norm_num
  | succ m ih =>
    rw [v1seedSum, List.range_succ, List.foldl_append, ← v1seedSum, ih, List.foldl]
    rw [i32_u32_add, wrap32_add_left]
    push_cast
    ring_nf
    rw [List.foldl_nil]

/-- C4: the 2020 `EMA(int n, float val)` constructor was meant to set the
smoothing-window member to the period argument, but its body `n = n;` assigns
the shadowing parameter to itself, so the member keeps its indeterminate prior
value (here 0) instead of the period 5, while the three history slots are set
to the seed; the 2022 revision `EMA(int n, float value) : m_n(n)` implements
the claimed behaviour. -/
theorem C4_ema_ctor_self_assign :
    (EMA1.construct 0 5 1).n = 0 ∧ ¬(EMA1.construct 0 5 1).n = 5 ∧
    (EMA1.construct 0 5 1).v0 = 1 ∧ (EMA1.construct 0 5 1).v1 = 1 ∧
    (EMA1.construct 0 5 1).v2 = 1 ∧
    (EMA2.construct 5 1).n = 5 ∧ (EMA2.construct 5 1).v0 = 1 ∧
    (EMA2.construct 5 1).v1 = 1 ∧ (EMA2.construct 5 1).v2 = 1 :=
  ⟨rfl, by decide, rfl, rfl, rfl, rfl, rfl, rfl, rfl⟩

/-- C5 counterexample: the part_001 revision does not clamp the requested
capacity; constructing with requested capacity 0 yields capacity 0 and
zero-element storage, not the claimed max(0, 1) = 1. -/
theorem C5_no_clamp_in_part001 :
    (MA.construct 0 0).n = 0 ∧ (MA.construct 0 0).data.length = 0 ∧
    ¬(MA.construct 0 0).n = max 0 1 := by
  refine ⟨rfl, by decide, by decide⟩

/-- C5 amended: the 2016/2020 revision (MakerMatty_MA.h) and the part_000
revision clamp a requested capacity of 0 to 1 and allocate max(requested, 1)
elements; the part_001 revision uses the requested capacity unchanged, so a
requested capacity of 0 produces capacity 0 and zero-element storage. -/
theorem C5_capacity_clamp_by_revision (len : Nat) (init : Int) (g : Nat → Int) (tSize : Nat) :
    (MAv1.construct len init g).n = max len 1 ∧
    (MAv1.construct len init g).data.length = max len 1 ∧
    (MAv2.construct len init g tSize).n = max len 1 ∧
    (MAv2.construct len init g tSize).data.length = max len 1 ∧
    (MA.construct len init).n = len ∧
    (MA.construct len init).data.length = len := by
  have hmax : (if 1 ≤ len then len else 1) = max len 1 := by
    split <;> rename_i h' <;> [rw [Nat.max_eq_left h']; omega]
  unfold MAv1.construct MAv2.construct MA.construct
  by_cases h : init ≠ 0 <;> simp [h, hmax]

/-- C6: both revisions of `EMA::update` shift the history (previous-previous
takes the old previous, previous takes the old current) and compute the new
current as `val * k + previous * (1 - k)` with `k = 2 / (n + 1)`; the 2022
revision additionally returns that freshly computed current value (the 2020
revision's `update` returns `void`, so only its state effect is stated). -/
theorem C6_ema_update_formula (e1 : EMA1) (e2 : EMA2) (v : ℚ) :
    (e1.update v).v2 = e1.v1 ∧ (e1.update v).v1 = e1.v0 ∧
    (e1.update v).getValue = v * (2 / ((e1.n : ℚ) + 1)) + e1.v0 * (1 - 2 / ((e1.n : ℚ) + 1)) ∧
    (e2.update v).1.v2 = e2.v1 ∧ (e2.update v).1.v1 = e2.v0 ∧
    (e2.update v).1.getValue = v * (2 / ((e2.n : ℚ) + 1)) + e2.v0 * (1 - 2 / ((e2.n : ℚ) + 1)) ∧
    (e2.update v).2 = (e2.update v).1.getValue :=
  ⟨rfl, rfl, rfl, rfl, rfl, rfl, rfl⟩

/-- C7 counterexample: for the tracker with period 1 and seed 0, the first
`update(5)` leaves history (5, 0, 0), so `getCurve()` returns
(5 - 0) - (0 - 0) = 5, not the claimed 0. -/
theorem C7_first_curve_not_zero :
    ((EMA2.construct 1 0).update 5).1.getCurve = 5 ∧
    ¬((EMA2.construct 1 0).update 5).1.getCurve = 0 := by
  constructor <;>
    norm_num [EMA2.construct, EMA2.setValue, EMA2.update, EMA2.getCurve]

/-- C7 amended: with period 1 (k = 1) and seed 0, `update(5)` returns 5 and
leaves getValue() = 5, getSlope() = 5, getCurve() = 5; the subsequent
`update(10)` returns 10 and leaves getValue() = 10, getSlope() = 5,
getCurve() = 0.  (Every float operation in this trace is exact, so the
rational model coincides with the machine arithmetic.) -/
theorem C7_period1_trace :
    ((EMA2.construct 1 0).update 5).2 = 5 ∧
    ((EMA2.construct 1 0).update 5).1.getValue = 5 ∧
    ((EMA2.construct 1 0).update 5).1.getSlope = 5 ∧
    ((EMA2.construct 1 0).update 5).1.getCurve = 5 ∧
    (((EMA2.construct 1 0).update 5).1.update 10).2 = 10 ∧
    (((EMA2.construct 1 0).update 5).1.update 10).1.getValue = 10 ∧
    (((EMA2.construct 1 0).update 5).1.update 10).1.getSlope = 5 ∧
    (((EMA2.construct 1 0).update 5).1.update 10).1.getCurve = 0 := by
  refine ⟨?_, ?_, ?_, ?_, ?_, ?_, ?_, ?_⟩ <;>
    norm_num [EMA2.construct, EMA2.setValue, EMA2.update, EMA2.getValue,
      EMA2.getSlope, EMA2.getCurve]

/-- C8: moving a part_001 sliding average (move construction or move
assignment between distinct objects) transfers the entire state, so the
destination equals the source's pre-move state field for field (in particular
`getValue()` agrees), and the source is left in the default-constructed state:
capacity 0, null (empty) buffer, and index, sum, filled, value all zero/false. -/
theorem C8_move_semantics (src dst : MA) :
    (MA.moveConstruct src).1 = src ∧
    (MA.moveConstruct src).1.getValue = src.getValue ∧
    (MA.moveConstruct src).2 = MA.defaultState ∧
    (MA.moveAssign dst src).1 = src ∧
    (MA.moveAssign dst src).1.getValue = src.getValue ∧
    (MA.moveAssign dst src).2 = MA.defaultState ∧
    MA.defaultState.n = 0 ∧ MA.defaultState.data = [] ∧ MA.defaultState.index = 0 ∧
    MA.defaultState.sum = 0 ∧ MA.defaultState.filled = false ∧ MA.defaultState.value = 0 :=
  ⟨rfl, rfl, rfl, rfl, rfl, rfl, rfl, rfl, rfl, rfl, rfl, rfl⟩

/-- C3 counterexample: in the 2016/2020 revision, constructing with capacity 1
and seed 5 leaves the cached value at its member-initializer 0, so `getValue()`
with no prior update returns 0, not the claimed seed 5. -/
theorem C3_seeded_value_stays_zero_in_v1 :
    (MAv1.construct 1 5 (fun _ => 0)).getValue = 0 ∧
    ¬(MAv1.construct 1 5 (fun _ => 0)).getValue = 5 := by
  refine ⟨rfl, by decide⟩

/-- C3 amended: seeded construction (capacity c >= 1, non-zero seed) fills
every slot with the seed and sets filled; in the part_000 and part_001
revisions it also sets runningSum = seed * c and caches the seed as the current
value, whereas in the MakerMatty_MA.h revision the cached value remains 0 until
the first update and the running sum — accumulated through `(uint32_t)` casts
into an `int32_t` — equals seed * c whenever that product fits in signed
32-bit range. -/
theorem C3_seeded_construction (c : Nat) (init : Int) (g : Nat → Int) (tSize : Nat)
    (hc : 1 ≤ c) (hinit : init ≠ 0) :
    (MA.construct c init).data = List.replicate c init ∧
    (MA.construct c init).sum = init * (c : Int) ∧
    (MA.construct c init).filled = true ∧
    (MA.construct c init).getValue = init ∧
    (MAv2.construct c init g tSize).n = c ∧
    (MAv2.construct c init g tSize).data = List.replicate c init ∧
    (MAv2.construct c init g tSize).sum = init * (c : Int) ∧
    (MAv2.construct c init g tSize).filled = true ∧
    (MAv2.construct c init g tSize).getValue = init ∧
    (MAv1.construct c init g).n = c ∧
    (MAv1.construct c init g).data = List.replicate c init ∧
    (MAv1.construct c init g).filled = true ∧
    (MAv1.construct c init g).getValue = 0 ∧
    (-(2 ^ 31) ≤ init * (c : Int) → init * (c : Int) < 2 ^ 31 →
      (MAv1.construct c init g).sum = init * (c : Int)) := by
  have hn : (if 1 ≤ c then c else 1) = c := if_pos hc
  refine ⟨by simp [MA.construct, hinit], by simp [MA.construct, hinit],
    by simp [MA.construct, hinit], by simp [MA.construct, MA.getValue, hinit],
    by simp [MAv2.construct, hinit, hn], by simp [MAv2.construct, hinit, hn],
    by simp [MAv2.construct, hinit, hn], by simp [MAv2.construct, hinit, hn],
    by simp [MAv2.construct, MA.getValue, hinit, hn],
    by simp [MAv1.construct, hinit, hn], by simp [MAv1.construct, hinit, hn],
    by simp [MAv1.construct, hinit, hn], by simp [MAv1.construct, MA.getValue, hinit, hn],
    fun h1 h2 => by
      simp [MAv1.construct, hinit, hn, v1seedSum_eq, wrap32_eq_self _ h1 h2]⟩

/-- C3 witness: the amended statement instantiated at capacity 2, seed 5. -/
theorem C3_seeded_construction_witness :
    (MA.construct 2 5).getValue = 5 ∧ (MAv1.construct 2 5 (fun _ => 0)).getValue = 0 ∧
    (MAv1.construct 2 5 (fun _ => 0)).sum = 10 := by
  have h := C3_seeded_construction 2 5 (fun _ => 0) 4 (by norm_num) (by norm_num)
  obtain ⟨-, -, -, h4, -, -, -, -, -, -, -, -, h13, h14⟩ := h
  refine ⟨h4, h13, ?_⟩
  have := h14 (by norm_num) (by norm_num)
  norm_num at this
  exact this

lemma getD_replicate_zero (n i : Nat) : (List.replicate n (0 : Int)).getD i 0 = 0 := by
  simp only [List.getD_eq_getElem?_getD, List.getElem?_replicate]
  split <;> simp

lemma getD_set_self (l : List Int) (i : Nat) (v : Int) (h : i < l.length) :
    (l.set i v).getD i 0 = v := by
  simp [List.getD_eq_getElem?_getD, List.getElem?_set_self, h]

lemma getD_set_ne (l : List Int) (i j : Nat) (v : Int) (h : i ≠ j) :
    (l.set i v).getD j 0 = l.getD j 0 := by
  simp [List.getD_eq_getElem?_getD, List.getElem?_set_ne h]

lemma sum_set (l : List Int) (i : Nat) (v : Int) (h : i < l.length) :
    (l.set i v).sum = l.sum - l.getD i 0 + v := by
  induction l generalizing i with
  | nil => simp at h
  | cons a t ih =>
    cases i with
    | zero =>
      simp only [List.set_cons_zero, List.sum_cons, List.getD_cons_zero]
      ring
    | succ j =>
      simp only [List.set_cons_succ, List.sum_cons, List.getD_cons_succ]
      rw [ih j (by simpa using h)]
      ring

lemma take_set_succ (l : List Int) (i : Nat) (v : Int) (h : i < l.length) :
    (l.set i v).take (i + 1) = l.take i ++ [v] := by
  induction l generalizing i with
  | nil => simp at h
  | cons a t ih =>
    cases i with
    | zero => simp
    | succ j =>
      simp only [List.set_cons_succ, List.take_succ_cons, List.cons_append]
      rw [ih j (by simpa using h)]

lemma inv_construct (c : Nat) (init : Int) (hc : 1 ≤ c) : MA.Inv (MA.construct c init) := by
  by_cases h : init ≠ 0
  · refine ⟨by simp [MA.construct, h], by simp [MA.construct, h],
      by simp [MA.construct, h]; omega, ?_⟩
    simp [MA.construct, h, List.sum_replicate, nsmul_eq_mul, mul_comm]
  · refine ⟨by simp [MA.construct, h], by simp [MA.construct, h],
      by simp [MA.construct, h]; omega, ?_⟩
    simp only [MA.construct, h]
    simp [getD_replicate_zero]

lemma inv_setValue (s : MA) (v : Int) (h : MA.Inv s) : MA.Inv (s.setValue v) := by
  obtain ⟨hlen, hidx, hn, -⟩ := h
  refine ⟨by simp [MA.setValue], by simp [MA.setValue, hidx],
    by simp [MA.setValue, hn], ?_⟩
  simp [MA.setValue, List.sum_replicate, nsmul_eq_mul, mul_comm]

lemma inv_update (s : MA) (v : Int) (h : MA.Inv s) : MA.Inv (s.update v) := by
  obtain ⟨hlen, hidx, hn, hrest⟩ := h
  by_cases hr : s.n ≤ s.index
  · -- the index has reached the capacity: it resets to 0 and filled becomes true
    have hie : s.index = s.n := le_antisymm hidx hr
    have hsum : s.sum = s.data.sum := by
      by_cases hf : s.filled = true
      · simpa [hf] using hrest
      · rw [if_neg (by simp [hf])] at hrest
        rw [hrest.1, hie, ← hlen, List.take_length]
    have h0 : 0 < s.data.length := by omega
    refine ⟨?_, ?_, ?_, ?_⟩ <;>
      simp only [MA.update, MA.updateIndex0, MA.updateFilled, if_pos hr]
    · simp [hlen]
    · omega
    · exact hn
    · simp only [if_true]
      rw [sum_set _ _ _ h0, hsum]
  · -- no wrap: the current index slot is overwritten
    have hilt : s.index < s.n := lt_of_not_le hr
    have hIlen : s.index < s.data.length := by omega
    by_cases hf : s.filled = true
    · have hsum : s.sum = s.data.sum := by simpa [hf] using hrest
      refine ⟨?_, ?_, ?_, ?_⟩ <;>
        simp only [MA.update, MA.updateIndex0, MA.updateFilled, if_neg hr]
      · simp [hlen]
      · omega
      · exact hn
      · simp only [hf, if_true]
        rw [sum_set _ _ _ hIlen, hsum]
    · rw [if_neg (by simp [hf])] at hrest
      obtain ⟨hsum, htail⟩ := hrest
      refine ⟨?_, ?_, ?_, ?_⟩ <;>
        simp only [MA.update, MA.updateIndex0, MA.updateFilled, if_neg hr]
      · simp [hlen]
      · omega
      · exact hn
      · simp only [hf, if_false, Bool.false_eq_true]
        refine ⟨?_, ?_⟩
        · rw [take_set_succ _ _ _ hIlen, List.sum_append, ← hsum,
            htail s.index le_rfl]
          simp
        · intro i hi
          rw [getD_set_ne _ _ _ _ (by omega)]
          exact htail i (by omega)

lemma reachable_inv (s : MA) (h : MA.Reachable s) : MA.Inv s := by
  induction h with
  | construct c init hc => exact inv_construct c init hc
  | update s v _ ih => exact inv_update s v ih
  | setValue s v _ ih => exact inv_setValue s v ih

/-- C9: in every state of the part_001 sliding average reachable by a
construction with capacity at least 1 followed by any sequence of `update` and
`setValue` calls, the running sum `m_sum` equals the exact sum of the
`min(samplesSeen, capacity)` most recent values physically stored in the
buffer: the whole buffer once `m_filled` holds, and the first `m_index` slots
(all the samples seen so far) before the first wrap. -/
theorem C9_running_sum_invariant (s : MA) (h : MA.Reachable s) : MA.SumInv s := by
  have hrest := (reachable_inv s h).2.2.2
  rw [MA.SumInv]
  by_cases hf : s.filled = true
  · simpa [hf] using hrest
  · rw [if_neg (by simp [hf])] at hrest ⊢
    exact hrest.1

/-- C9 witness: the invariant holds in the concrete reachable state obtained by
constructing with capacity 3 and pushing 10 and then 20; the running sum there
is 30, the sum of the two samples stored. -/
theorem C9_running_sum_invariant_witness :
    ((MA.construct 3 0).update 10 |>.update 20).sum = 30 := by
  have h := C9_running_sum_invariant ((MA.construct 3 0).update 10 |>.update 20)
    (MA.Reachable.update _ 20 (MA.Reachable.update _ 10
      (MA.Reachable.construct 3 0 (by norm_num))))
  rw [MA.SumInv] at h
  rw [h]
  decide

/-- C10: in every reachable state of the part_001 sliding average (capacity at
least 1 at construction), the slot index read and written by `update` is
strictly below the capacity, and the divisor of the average — the capacity when
filled, otherwise the post-increment write index — is at least 1, so `update`
never divides by zero and never indexes out of bounds. -/
theorem C10_update_divisor_and_index_safe (s : MA) (h : MA.Reachable s) :
    s.updateIndex0 < s.n ∧ 1 ≤ s.updateDivisor := by
  obtain ⟨hlen, hidx, hn, -⟩ := reachable_inv s h
  constructor
  · rw [MA.updateIndex0]
    split <;> omega
  · rw [MA.updateDivisor]
    split
    · exact hn
    · omega

/-- C10 witness: the bounds instantiated in the concrete reachable state after
constructing with capacity 3 and pushing 10, 20, 30 (the next `update` wraps). -/
theorem C10_update_divisor_and_index_safe_witness :
    ((MA.construct 3 0).runUpdates [10, 20, 30]).updateIndex0 <
      ((MA.construct 3 0).runUpdates [10, 20, 30]).n ∧
    1 ≤ ((MA.construct 3 0).runUpdates [10, 20, 30]).updateDivisor :=
  C10_update_divisor_and_index_safe _
    (MA.Reachable.update _ 30 (MA.Reachable.update _ 20 (MA.Reachable.update _ 10
      (MA.Reachable.construct 3 0 (by norm_num)))))

/-- Auxiliary scan: value held by buffer slot `j` of a capacity-`c` ring after
the samples of the list have been written starting at push position `pos`,
where `cur` is the slot's current content (push position `p` writes slot
`p % c`). -/
def slotValFrom (c j : Nat) : Nat → List Int → Int → Int
  | _, [], cur => cur
  | pos, v :: rest, cur => slotValFrom c j (pos + 1) rest (if pos % c = j then v else cur)

/-- Content of buffer slot `j` of a capacity-`c` ring after pushing the list
`vs` into a zero-initialized buffer: the last sample pushed at a position
congruent to `j` mod `c`, or 0 if there is none. -/
def slotVal (vs : List Int) (c j : Nat) : Int :=
  slotValFrom c j 0 vs 0

/-- Closed form for `slotVal`: the sample at the largest push position below
`vs.length` that is congruent to `j` mod `c`, or 0 when `j` exceeds every push
position. -/
def lastAt (vs : List Int) (c j : Nat) : Int :=
  if vs.length ≤ j then 0
  else vs.getD (vs.length - 1 - ((vs.length - 1 - j) % c)) 0

lemma slotValFrom_append (c j : Nat) (vs : List Int) (v : Int) :
    ∀ (pos : Nat) (cur : Int), slotValFrom c j pos (vs ++ [v]) cur =
      if (pos + vs.length) % c = j then v else slotValFrom c j pos vs cur := by
  induction vs with
  | nil =>
    intro pos cur
    simp [slotValFrom]
  | cons a t ih =>
    intro pos cur
    show slotValFrom c j (pos + 1) (t ++ [v]) (if pos % c = j then a else cur) =
      if (pos + (a :: t).length) % c = j then v
      else slotValFrom c j (pos + 1) t (if pos % c = j then a else cur)
    rw [ih (pos + 1) (if pos % c = j then a else cur), List.length_cons,
      show pos + 1 + t.length = pos + (t.length + 1) by omega]

lemma slotVal_append (vs : List Int) (v : Int) (c j : Nat) :
    slotVal (vs ++ [v]) c j = if vs.length % c = j then v else slotVal vs c j := by
  rw [slotVal, slotValFrom_append, Nat.zero_add, slotVal]

lemma succ_mod (a c : Nat) (hc : 0 < c) :
    (a + 1) % c = if a % c + 1 = c then 0 else a % c + 1 := by
  have hd := Nat.div_add_mod a c
  have hlt : a % c < c := Nat.mod_lt a hc
  split <;> rename_i h
  · have he : a + 1 = c * (a / c) + c := by omega
    rw [he, ← Nat.mul_succ, Nat.mul_mod_right]
  · have h2 : a % c + 1 < c := by omega
    conv_lhs => rw [show a + 1 = c * (a / c) + (a % c + 1) by omega]
    rw [Nat.mul_add_mod]
    exact Nat.mod_eq_of_lt h2

lemma getD_append_left (l m : List Int) (j : Nat) (h : j < l.length) :
    (l ++ m).getD j 0 = l.getD j 0 := by
  simp [List.getD_eq_getElem?_getD, List.getElem?_append_left h]

lemma getD_append_length (l : List Int) (v : Int) :
    (l ++ [v]).getD l.length 0 = v := by
  simp [List.getD_eq_getElem?_getD]

lemma drop_eq_getD_cons (l : List Int) (m : Nat) (h : m < l.length) :
    l.drop m = l.getD m 0 :: l.drop (m + 1) := by
  rw [List.drop_eq_getElem_cons h, List.getD_eq_getElem l 0 h]

lemma slotVal_eq_lastAt (c : Nat) (hc : 1 ≤ c) (vs : List Int) :
    ∀ j, j < c → slotVal vs c j = lastAt vs c j := by
  induction vs using List.reverseRecOn with
  | nil =>
    intro j hj
    simp [slotVal, slotValFrom, lastAt]
  | append_singleton vs v ih =>
    intro j hj
    rw [slotVal_append]
    have hk : (vs ++ [v]).length = vs.length + 1 := by simp
    by_cases hjk : vs.length % c = j
    · rw [if_pos hjk, lastAt, hk]
      have hmle : vs.length % c ≤ vs.length := Nat.mod_le vs.length c
      rw [if_neg (by omega)]
      have h1 : vs.length - j = c * (vs.length / c) := by
        have := Nat.div_add_mod vs.length c
        omega
      have h2 : (vs.length + 1 - 1 - j) % c = 0 := by
        rw [Nat.add_sub_cancel, h1, Nat.mul_mod_right]
      rw [h2, Nat.sub_zero, Nat.add_sub_cancel, getD_append_length]
    · rw [if_neg hjk, ih j hj, lastAt, lastAt, hk]
      by_cases hlej : vs.length ≤ j
      · have hjne : j ≠ vs.length := by
          intro he
          have : vs.length % c = vs.length := Nat.mod_eq_of_lt (he ▸ hj)
          omega
        rw [if_pos hlej, if_pos (show vs.length + 1 ≤ j by omega)]
      · -- j < vs.length: both sides read the same element of vs
        have hjlt : j < vs.length := by omega
        have hmne : (vs.length - j) % c ≠ 0 := by
          intro h0
          have hdvd : c ∣ vs.length - j := Nat.dvd_iff_mod_eq_zero.mpr h0
          have hmeq : j ≡ vs.length [MOD c] :=
            (Nat.modEq_iff_dvd' (le_of_lt hjlt)).mpr hdvd
          have : j % c = vs.length % c := hmeq
          rw [Nat.mod_eq_of_lt hj] at this
          exact hjk this.symm
        have hs := succ_mod (vs.length - 1 - j) c (by omega)
        rw [show vs.length - 1 - j + 1 = vs.length - j by omega] at hs
        have hcond : ¬((vs.length - 1 - j) % c + 1 = c) := by
          intro hcEq
          rw [if_pos hcEq] at hs
          exact hmne hs
        rw [if_neg hcond] at hs
        have hmlt : (vs.length - j) % c < c := Nat.mod_lt _ (by omega)
        have hidx2 : vs.length + 1 - 1 - ((vs.length + 1 - 1 - j) % c) =
            vs.length - 1 - ((vs.length - 1 - j) % c) := by
          rw [show vs.length + 1 - 1 - j = vs.length - j by omega, hs]
          omega
        have hbound : vs.length - 1 - ((vs.length - 1 - j) % c) < vs.length := by
          omega
        rw [if_neg hlej, if_neg (by omega), hidx2, getD_append_left _ _ _ hbound]

lemma MAfrom_append (c : Nat) (vs : List Int) (v : Int) :
    MAfrom c (vs ++ [v]) = (MAfrom c vs).update v := by
  rw [MAfrom, MAfrom, MA.runUpdates, MA.runUpdates, List.foldl_append]
  rfl

/-- Full characterization of the state of an unseeded capacity-`c` sliding
average (part_001 revision) after pushing the samples `vs`: capacity and buffer
length are `c`; slot `j` holds the last sample pushed at a position congruent
to `j` mod `c` (0 if none); the write index is the push count reduced into
`[1, c]` cyclically (0 before any push); `m_filled` is set once more than `c`
samples were pushed; `m_sum` is the sum of the last `min(pushed, c)` samples;
and the cached value is that sum divided (truncated) by `min(pushed, c)`. -/
lemma MAfrom_spec (c : Nat) (hc : 1 ≤ c) (vs : List Int) :
    (MAfrom c vs).n = c ∧
    (MAfrom c vs).data.length = c ∧
    (∀ j, j < c → (MAfrom c vs).data.getD j 0 = slotVal vs c j) ∧
    (MAfrom c vs).index = (if vs.length = 0 then 0 else (vs.length - 1) % c + 1) ∧
    (MAfrom c vs).filled = decide (c < vs.length) ∧
    (MAfrom c vs).sum = (vs.drop (vs.length - c)).sum ∧
    (MAfrom c vs).value = (if vs.length = 0 then 0
      else Int.tdiv ((vs.drop (vs.length - c)).sum) ((min vs.length c : Nat) : Int)) := by
  induction vs using List.reverseRecOn with
  | nil =>
    have h0 : MAfrom c [] = MA.construct c 0 := rfl
    have hcon : MA.construct c 0 =
        { n := c, data := List.replicate c 0, index := 0, sum := 0,
          filled := false, value := 0 } := by
      rw [MA.construct, if_neg (by norm_num)]
    rw [h0, hcon]
    refine ⟨rfl, by simp, ?_, by simp, by simp, by simp, by simp⟩
    intro j hj
    simp [slotVal, slotValFrom, getD_replicate_zero]
  | append_singleton vs v ih =>
    obtain ⟨hn, hlen, hslot, hidx, hfill, hsum, hval⟩ := ih
    have hrun : MAfrom c (vs ++ [v]) = (MAfrom c vs).update v := MAfrom_append c vs v
    have hkc : vs.length % c < c := Nat.mod_lt _ (by omega)
    -- the slot index accessed by this update is the push count mod the capacity
    have hi0 : (MAfrom c vs).updateIndex0 = vs.length % c := by
      rw [MA.updateIndex0, hn, hidx]
      by_cases hk0 : vs.length = 0
      · simp [hk0]
      · rw [if_neg hk0]
        have hs1 := succ_mod (vs.length - 1) c (by omega)
        rw [show vs.length - 1 + 1 = vs.length by omega] at hs1
        by_cases hw : (vs.length - 1) % c + 1 = c
        · rw [if_pos (by omega), hs1, if_pos hw]
        · have hmlt : (vs.length - 1) % c < c := Nat.mod_lt _ (by omega)
          rw [if_neg (by omega), hs1, if_neg hw]
    -- after this update the filled flag records whether the buffer has wrapped
    have hf : (MAfrom c vs).updateFilled = decide (c ≤ vs.length) := by
      rw [MA.updateFilled, hn, hidx, hfill]
      rcases Nat.lt_or_ge vs.length c with hkc2 | hkc2
      · rw [decide_eq_false (by omega)]
        by_cases hk0 : vs.length = 0
        · rw [if_pos hk0, if_neg (by omega), decide_eq_false (by omega)]
        · rw [if_neg hk0, Nat.mod_eq_of_lt (show vs.length - 1 < c by omega),
            if_neg (by omega), decide_eq_false (by omega)]
      · rw [decide_eq_true (by omega : c ≤ vs.length)]
        have hk0 : ¬(vs.length = 0) := by omega
        rw [if_neg hk0]
        rcases Nat.lt_or_ge c vs.length with hkc3 | hkc3
        · by_cases hcond : c ≤ (vs.length - 1) % c + 1
          · rw [if_pos hcond]
          · rw [if_neg hcond, decide_eq_true hkc3]
        · have hke : vs.length = c := by omega
          rw [hke, Nat.mod_eq_of_lt (show c - 1 < c by omega), if_pos (by omega)]
    -- the evicted slot holds 0 before the first wrap, the sample pushed c
    -- positions ago afterwards
    have hevict : (MAfrom c vs).data.getD (vs.length % c) 0 =
        if vs.length < c then 0 else vs.getD (vs.length - c) 0 := by
      rw [hslot (vs.length % c) hkc, slotVal_eq_lastAt c hc vs (vs.length % c) hkc, lastAt]
      rcases Nat.lt_or_ge vs.length c with hkc2 | hkc2
      · rw [if_pos (show vs.length ≤ vs.length % c by rw [Nat.mod_eq_of_lt hkc2]),
          if_pos hkc2]
      · have hq : 1 ≤ vs.length / c := (Nat.one_le_div_iff (by omega)).mpr hkc2
        have hdm := Nat.div_add_mod vs.length c
        have hmul : c * (vs.length / c) = c * (vs.length / c - 1) + c := by
          conv_lhs => rw [show vs.length / c = vs.length / c - 1 + 1 by omega]
          rw [Nat.mul_succ]
        have h1 : vs.length - 1 - vs.length % c = c * (vs.length / c - 1) + (c - 1) := by
          omega
        have h2 : (vs.length - 1 - vs.length % c) % c = c - 1 := by
          rw [h1, Nat.mul_add_mod, Nat.mod_eq_of_lt (by omega)]
        have hmle : vs.length % c ≤ vs.length := Nat.mod_le vs.length c
        rw [if_neg (show ¬vs.length ≤ vs.length % c by omega), h2, if_neg (by omega)]
        congr 1
        omega
    -- the divisor used for the cached average is min(pushed + 1, capacity)
    have hdiv : (MAfrom c vs).updateDivisor = min (vs.length + 1) c := by
      rw [MA.updateDivisor, hf, hi0, hn]
      rcases Nat.lt_or_ge vs.length c with hkc2 | hkc2
      · rw [decide_eq_false (by omega)]
        simp only [Bool.false_eq_true, if_false]
        rw [Nat.mod_eq_of_lt hkc2]
        omega
      · rw [decide_eq_true (by omega : c ≤ vs.length)]
        simp only [if_true]
        omega
    -- the new running sum is the sum of the last min(pushed + 1, c) samples
    have hnewsum : (MAfrom c vs).sum -
        (if vs.length < c then 0 else vs.getD (vs.length - c) 0) + v =
        ((vs ++ [v]).drop (vs.length + 1 - c)).sum := by
      rw [hsum]
      rcases Nat.lt_or_ge vs.length c with hkc2 | hkc2
      · rw [if_pos hkc2, show vs.length - c = 0 by omega,
          show vs.length + 1 - c = 0 by omega, List.drop_zero, List.drop_zero,
          List.sum_append, List.sum_singleton]
        ring
      · rw [if_neg (by omega), drop_eq_getD_cons vs (vs.length - c) (by omega),
          List.sum_cons, show vs.length + 1 - c = vs.length - c + 1 by omega,
          List.drop_append_of_le_length (by omega), List.sum_append, List.sum_singleton]
        ring
    have hupd_n : ((MAfrom c vs).update v).n = (MAfrom c vs).n := rfl
    have hupd_data : ((MAfrom c vs).update v).data =
        (MAfrom c vs).data.set ((MAfrom c vs).updateIndex0) v := rfl
    have hupd_index : ((MAfrom c vs).update v).index = (MAfrom c vs).updateIndex0 + 1 := rfl
    have hupd_sum : ((MAfrom c vs).update v).sum =
        (MAfrom c vs).sum - (MAfrom c vs).data.getD ((MAfrom c vs).updateIndex0) 0 + v := rfl
    have hupd_filled : ((MAfrom c vs).update v).filled = (MAfrom c vs).updateFilled := rfl
    have hupd_value : ((MAfrom c vs).update v).value =
        Int.tdiv ((MAfrom c vs).sum - (MAfrom c vs).data.getD ((MAfrom c vs).updateIndex0) 0 + v)
          ((MAfrom c vs).updateDivisor : Int) := rfl
    rw [hrun]
    refine ⟨?_, ?_, ?_, ?_, ?_, ?_, ?_⟩
    · rw [hupd_n, hn]
    · rw [hupd_data, List.length_set, hlen]
    · intro j hj
      rw [hupd_data, hi0, slotVal_append]
      by_cases hj0 : vs.length % c = j
      · rw [if_pos hj0, ← hj0]
        exact getD_set_self _ _ _ (by rw [hlen]; exact hkc)
      · rw [if_neg hj0, getD_set_ne _ _ _ _ hj0, hslot j hj]
    · rw [hupd_index, hi0]
      simp only [List.length_append, List.length_singleton]
      rw [if_neg (by omega), Nat.add_sub_cancel]
    · rw [hupd_filled, hf]
      simp only [List.length_append, List.length_singleton]
      exact decide_eq_decide.mpr (by omega)
    · rw [hupd_sum, hi0, hevict]
      simp only [List.length_append, List.length_singleton]
      exact hnewsum
    · rw [hupd_value, hi0, hevict, hdiv]
      simp only [List.length_append, List.length_singleton]
      rw [if_neg (show ¬(vs.length + 1 = 0) by omega), hnewsum]

/-- C1: for every capacity c >= 1, an unseeded (zero-seed) sliding average
(part_001 revision, whose unseeded constructor zero-fills the buffer), and any
non-empty sequence of at most c samples, the cached value after the last
update — which is what that update returns and what `getValue()` then
reports — is the truncating integer quotient of the sum of the pushed samples
by their count; moreover `update`'s return value always coincides with
`getValue()` of the state it leaves behind. -/
theorem C1_partial_fill_average (c : Nat) (vs : List Int)
    (hc : 1 ≤ c) (hne : vs ≠ []) (hle : vs.length ≤ c) :
    (MAfrom c vs).getValue = Int.tdiv vs.sum (vs.length : Int) ∧
    (∀ (s : MA) (w : Int), MA.updateRet s w = (s.update w).getValue) := by
  constructor
  · obtain ⟨-, -, -, -, -, -, hval⟩ := MAfrom_spec c hc vs
    rw [MA.getValue, hval, if_neg (by simpa using hne),
      show vs.length - c = 0 by omega, List.drop_zero, Nat.min_eq_left hle]
  · intro s w
    rfl

/-- C1 witness: capacity 3, samples 7 and 4; the second update caches
(7 + 4) / 2 = 5 (truncating division). -/
theorem C1_partial_fill_average_witness : (MAfrom 3 [7, 4]).getValue = 5 := by
  have h := (C1_partial_fill_average 3 [7, 4] (by norm_num) (by decide) (by norm_num)).1
  rw [h]
  decide

/-- C2: for every capacity c >= 1 and any sequence of at least c samples pushed
into an unseeded part_001 sliding average, the cached value after the last
update is the truncating integer quotient of the sum of the c most recent
samples by c; in particular with capacity 3 the pushes 10, 20, 30, 40 return
10, 15, 20 and 30 respectively. -/
theorem C2_window_average (c : Nat) (vs : List Int) (hc : 1 ≤ c) (hge : c ≤ vs.length) :
    (MAfrom c vs).getValue = Int.tdiv ((vs.drop (vs.length - c)).sum) (c : Int) ∧
    (MAfrom 3 [10]).getValue = 10 ∧ (MAfrom 3 [10, 20]).getValue = 15 ∧
    (MAfrom 3 [10, 20, 30]).getValue = 20 ∧ (MAfrom 3 [10, 20, 30, 40]).getValue = 30 := by
  refine ⟨?_, by decide, by decide, by decide, by decide⟩
  obtain ⟨-, -, -, -, -, -, hval⟩ := MAfrom_spec c hc vs
  rw [MA.getValue, hval, if_neg (by omega), Nat.min_eq_right hge]

/-- C2 witness: capacity 3 with samples 10, 20, 30, 40; the wrapping fourth
update evicts the 10 and caches (20 + 30 + 40) / 3 = 30. -/
theorem C2_window_average_witness : (MAfrom 3 [10, 20, 30, 40]).getValue = 30 := by
  have h := (C2_window_average 3 [10, 20, 30, 40] (by norm_num) (by norm_num)).1
  rw [h]
  decide
